import Mathlib

/-!
Shallow embedding of `moonlight/models/base/glyph_patches.py`: the input
pipeline, data augmentation and serving wiring of the patch-based glyph
model, together with theorems about the embedded definitions.

Modelling conventions:
* a patch tensor of shape (H, W) is a list of H rows, each a list of W
  pixel values; pixel values are rationals (exact model of float32 values)
  except in the rotation augmentation, where angles force real numbers;
* TensorFlow random ops are modelled by passing the drawn value (or the
  underlying uniform sample in `[0,1)`) explicitly, following the spec's
  own design note that the implicit global RNG should be an explicit
  handle in a reimplementation;
* Python control flow that can raise is modelled with `Except`; a Python
  function body that falls off the end returns `none` (Python `None`).
-/

namespace GlyphPatches

/-- A patch tensor: list of rows, each row a list of pixel values. -/
abbrev Patch (α : Type) : Type := List (List α)

/-- Embeds `_shift_left` (glyph_patches.py line 155): per row,
`tf.concat([patch[:, 1:], patch[:, -1:]], axis=1)` — drop column 0 and
append a copy of the last column. -/
def _shift_left {α : Type} (patch : Patch α) : Patch α :=
  patch.map (fun row => row.drop 1 ++ row.drop (row.length - 1))

/-- Embeds `_shift_right` (glyph_patches.py line 160): per row,
`tf.concat([patch[:, :1], patch[:, :-1]], axis=1)` — prepend a copy of
column 0 and drop the last column. -/
def _shift_right {α : Type} (patch : Patch α) : Patch α :=
  patch.map (fun row => row.take 1 ++ row.take (row.length - 1))

/-- Embeds `_augment_shift` (glyph_patches.py lines 139-152).  The single
`tf.random_uniform(())` draw is the explicit argument `rand`;
`shift_prob = min(1., FLAGS.augmentation_x_shift_probability)` and the
nested `tf.cond` decides between the three branches. -/
def _augment_shift {α : Type} (p_shift rand : ℚ) (patch : Patch α) : Patch α :=
  let shift_prob := min 1 p_shift
  if rand < shift_prob / 2 then _shift_left patch
  else if rand < shift_prob then _shift_right patch
  else patch

/-- The patch has H rows of W pixels each. -/
def hasShape (H W : Nat) (patch : Patch ℚ) : Prop :=
  patch.length = H ∧ ∀ row ∈ patch, row.length = W

instance (H W : Nat) (patch : Patch ℚ) : Decidable (hasShape H W patch) := by
  unfold hasShape; infer_instance

/-- Pixel at row i, column j (0 outside the patch). -/
def entry (patch : Patch ℚ) (i j : Nat) : ℚ :=
  (patch.getD i []).getD j 0

/-- Pointwise `1 - patch`, the inversion used around the rotation
(glyph_patches.py lines 172-173).  Rotation works over real pixel values
because the rotation angle is real. -/
def oneMinus (patch : Patch ℝ) : Patch ℝ :=
  patch.map (fun row => row.map (fun x => 1 - x))

/-- Embeds `math.radians` (used at glyph_patches.py line 167). -/
noncomputable def radians (degrees : ℝ) : ℝ :=
  degrees * (Real.pi / 180)

/-- Embeds `tf.random_uniform((), minval, maxval)`: the drawn value is
`minval + u * (maxval - minval)` for a uniform sample `u ∈ [0,1)`. -/
def tf_random_uniform (minval maxval u : ℝ) : ℝ :=
  minval + u * (maxval - minval)

/-- Embeds `_augment_rotation` (glyph_patches.py lines 165-173).
`rotate` stands for the external `tf.contrib.image.rotate` with bilinear
interpolation (taking the patch and the angle in radians); the uniform
sample `u ∈ [0,1)` behind the single `tf.random_uniform` draw is explicit.
The patch is inverted before and after rotating because the library fills
exposed edges with 0 while the background color is 1. -/
noncomputable def _augment_rotation (rotate : Patch ℝ → ℝ → Patch ℝ)
    (max_degrees u : ℝ) (patch : Patch ℝ) : Patch ℝ :=
  let max_rotation_radians := radians max_degrees
  let rotation := tf_random_uniform (-max_rotation_radians) max_rotation_radians u
  oneMinus (rotate (oneMinus patch) rotation)

/-- Embeds `_augment` (glyph_patches.py lines 134-136):
`_augment_rotation(_augment_shift(patch))`, with the two random draws
(`rand` for the shift, `u` for the rotation) passed explicitly. -/
noncomputable def _augment (rotate : Patch ℝ → ℝ → Patch ℝ) (p_shift : ℚ)
    (max_degrees : ℝ) (rand : ℚ) (u : ℝ) (patch : Patch ℝ) : Patch ℝ :=
  _augment_rotation rotate max_degrees u (_augment_shift p_shift rand patch)

/-- One `tf.train.Example` record of the labeled-patch dataset: the
feature map holds integer-list features `height` and `width`, a `patch`
tensor, an integer `label` and an optional `label_weight`. -/
structure ExampleProto where
  height : List Int
  width : List Int
  patch : Patch ℚ
  label : Int
  label_weight : Option ℚ
deriving DecidableEq

/-- A serialized record as stored in a TFRecord file: `none` stands for
bytes that `tf.train.Example.FromString` cannot parse. -/
abbrev Record : Type := Option ExampleProto

/-- Python exceptions that `read_patch_dimensions` and its callers can
raise in the embedded fragment. -/
inductive PyError where
  /-- protobuf `DecodeError` from `Example.FromString` on bad bytes. -/
  | decodeError
  /-- Python `IndexError` from `value[0]` on an empty feature list. -/
  | indexError
  /-- Python `TypeError` from unpacking `None` into `(height, width)`. -/
  | typeError
deriving DecidableEq

/-- Embeds the body of the inner loop of `read_patch_dimensions`
(glyph_patches.py lines 80-86): parse the record, then read
`height.int64_list.value[0]` and `width.int64_list.value[0]`.  A missing
feature key yields an empty value list, so `value[0]` raises. -/
def parseDims (record : Record) : Except PyError (Int × Int) :=
  match record with
  | none => .error .decodeError
  | some ex =>
    match ex.height with
    | [] => .error .indexError
    | h :: _ =>
      match ex.width with
      | [] => .error .indexError
      | w :: _ => .ok (h, w)

/-- Embeds `read_patch_dimensions` (glyph_patches.py lines 67-86), before
memoization: iterate over the matched files; a file with no records lets
the outer loop continue; the first record of the first nonempty file is
parsed and returned.  Falling off both loops returns Python `None`. -/
def read_patch_dimensions (files : List (List Record)) :
    Except PyError (Option (Int × Int)) :=
  match files with
  | [] => .ok none
  | file :: rest =>
    match file with
    | [] => read_patch_dimensions rest
    | record :: _ =>
      match parseDims record with
      | .ok hw => .ok (some hw)
      | .error e => .error e

/-- First file of the scan that has at least one record. -/
def firstNonemptyFile (files : List (List Record)) : Option (List Record) :=
  files.find? (fun file => !file.isEmpty)

/-- Closed form of the dimension scan: empty files are skipped; the first
record of the first nonempty file decides the outcome (its parse error
propagates); with no nonempty file the function returns Python `None`. -/
def dimScanSpec (files : List (List Record)) : Except PyError (Option (Int × Int)) :=
  match firstNonemptyFile files with
  | none => .ok none
  | some [] => .ok none
  | some (record :: _) => (parseDims record).map some

/-- Modelled from the spec: `moonlight.util.memoize.MemoizedFunction`
(module `moonlight/util/memoize.py`, not included in the sources) wraps a
function and caches its result process-wide, so later calls are served
from the cache without invoking the wrapped function again. -/
structure MemoCache (β : Type) where
  cached : Option β

/-- Modelled from the spec: one call through the memoization wrapper.
Returns the result, the updated cache, and how many times the wrapped
function ran during the call (0 on a cache hit, 1 on a miss). -/
def memoizedCall {β : Type} (f : Unit → β) (st : MemoCache β) :
    β × MemoCache β × Nat :=
  match st.cached with
  | some v => (v, st, 0)
  | none =>
    let v := f ()
    (v, ⟨some v⟩, 1)

/-- Shape check done by `tf.FixedLenFeature((patch_height, patch_width))`
when parsing the `patch` feature (glyph_patches.py line 116). -/
def shapeOk (h w : Int) (patch : Patch ℚ) : Bool :=
  ((patch.length : Int) == h) && patch.all (fun row => ((row.length : Int) == w))

/-- Features dict produced by `tf.parse_single_example` at
glyph_patches.py line 122: `label_weight` is in the dict only when the
`use_included_label_weight` option asked for it. -/
structure ParsedFeatures where
  patch : Patch ℚ
  label : Int
  label_weight : Option ℚ
deriving DecidableEq

/-- Embeds `tf.parse_single_example(record, feature_types)` with the
`feature_types` dict of glyph_patches.py lines 114-121: the `patch`
feature must have shape `(h, w)`, and the `label_weight` feature is
required exactly when `use_included_label_weight` is set.  `none` is the
framework parse error. -/
def parse_single_example (use_included_label_weight : Bool) (h w : Int)
    (record : ExampleProto) : Option ParsedFeatures :=
  if shapeOk h w record.patch then
    if use_included_label_weight then
      match record.label_weight with
      | some lw => some ⟨record.patch, record.label, some lw⟩
      | none => none
    else some ⟨record.patch, record.label, none⟩
  else none

/-- Embeds the dataset `parser` closure (glyph_patches.py lines 103-129).
`weights_from_labels` stands for the external
`label_weights.weights_from_labels`, and `augment` for `_augment` with
its random draws fixed (the spec's explicit-RNG-handle reading).  When
`use_included_label_weight` is set, `parse_single_example` guarantees the
`label_weight` feature is present, so the `getD` default is never used. -/
def parser (use_included_label_weight : Bool) (weights_from_labels : Int → ℚ)
    (augment : Patch ℚ → Patch ℚ) (h w : Int) (record : ExampleProto) :
    Option ((Patch ℚ × ℚ) × Int) :=
  (parse_single_example use_included_label_weight h w record).map (fun features =>
    let label := features.label
    let weight0 := weights_from_labels label
    let weight := if use_included_label_weight
      then weight0 * features.label_weight.getD 1
      else weight0
    let patch := augment features.patch
    ((patch, weight), label))

/-- The command-line flags this fragment reads (glyph_patches.py lines
41-49); the augmentation probabilities are passed where they are used. -/
structure Config where
  train_input_patches : String
  eval_input_patches : String
  use_included_label_weight : Bool

/-- Embeds `input_fn` (glyph_patches.py lines 89-131):
`read_patch_dimensions()` always scans the glob of
`--train_input_patches` (the memoized function takes no argument), the
result is unpacked into `(patch_height, patch_width)` (unpacking `None`
raises `TypeError`), and the dataset built from the `input_patches`
argument glob is mapped by `parser`.  `matching_files` stands for
`file_io.get_matching_files` composed with `tf_record_iterator`: it takes
a glob pattern to the list of matched files, each a list of records. -/
def input_fn (cfg : Config) (matching_files : String → List (List Record))
    (weights_from_labels : Int → ℚ) (augment : Patch ℚ → Patch ℚ)
    (input_patches : String) :
    Except PyError (List (Option ((Patch ℚ × ℚ) × Int))) :=
  match read_patch_dimensions (matching_files cfg.train_input_patches) with
  | .error e => .error e
  | .ok none => .error .typeError
  | .ok (some (h, w)) =>
      .ok (((matching_files input_patches).flatten).map (fun record =>
        record.bind (fun ex =>
          parser cfg.use_included_label_weight weights_from_labels augment h w ex)))

/-- Embeds the evaluation input source wired by `train_and_evaluate`
(glyph_patches.py line 210): `input_fn(FLAGS.eval_input_patches)`. -/
def eval_input_fn (cfg : Config) (matching_files : String → List (List Record))
    (weights_from_labels : Int → ℚ) (augment : Patch ℚ → Patch ℚ) :
    Except PyError (List (Option ((Patch ℚ × ℚ) × Int))) :=
  input_fn cfg matching_files weights_from_labels augment cfg.eval_input_patches

/-- The `ServingInputReceiver` built at glyph_patches.py lines 189-195:
the features dict maps `patch` to the parsed batch, and the same parsed
batch is the receiver tensor (and its `patch` alternative). -/
structure ServingInputReceiver where
  features_patch : List (Patch ℚ)
  receiver_patch : List (Patch ℚ)
deriving DecidableEq

/-- Embeds `tf.parse_example(examples, ...)` at glyph_patches.py lines
186-188: every serialized example of the batch must carry a `patch`
feature of shape `(h, w)`; the parsed batch is the list of those patch
tensors. -/
def tf_parse_example (h w : Int) (examples : List ExampleProto) :
    Option (List (Patch ℚ)) :=
  if examples.all (fun ex => shapeOk h w ex.patch) then
    some (examples.map (fun ex => ex.patch))
  else none

/-- Embeds `serving_fn` (glyph_patches.py lines 176-195).  `h` and `w`
are the dimensions returned by `read_patch_dimensions()` at line 185. -/
def serving_fn (h w : Int) (examples : List ExampleProto) :
    Option ServingInputReceiver :=
  (tf_parse_example h w examples).map (fun parsed => ⟨parsed, parsed⟩)

lemma length_shiftLeftRow (row : List ℚ) (hW : 1 ≤ row.length) :
    (row.drop 1 ++ row.drop (row.length - 1)).length = row.length := by
  simp only [List.length_append, List.length_drop]
  omega

lemma length_shiftRightRow (row : List ℚ) (hW : 1 ≤ row.length) :
    (row.take 1 ++ row.take (row.length - 1)).length = row.length := by
  simp only [List.length_append, List.length_take]
  omega

lemma getD_shiftLeftRow_lt (row : List ℚ) (j : Nat) (hj : j < row.length - 1) :
    (row.drop 1 ++ row.drop (row.length - 1)).getD j 0 = row.getD (j + 1) 0 := by
  rw [List.getD_eq_getElem?_getD, List.getD_eq_getElem?_getD,
    List.getElem?_append, if_pos (by simp only [List.length_drop]; omega),
    List.getElem?_drop, Nat.add_comm]

lemma getD_shiftLeftRow_last (row : List ℚ) (hW : 1 ≤ row.length) :
    (row.drop 1 ++ row.drop (row.length - 1)).getD (row.length - 1) 0
      = row.getD (row.length - 1) 0 := by
  rw [List.getD_eq_getElem?_getD, List.getD_eq_getElem?_getD,
    List.getElem?_append, if_neg (by simp only [List.length_drop]; omega)]
  have h1 : row.length - 1 - (row.drop 1).length = 0 := by
    simp only [List.length_drop]
    omega
  rw [h1, List.getElem?_drop, Nat.add_zero]

lemma getD_shiftRightRow_zero (row : List ℚ) (hW : 1 ≤ row.length) :
    (row.take 1 ++ row.take (row.length - 1)).getD 0 0 = row.getD 0 0 := by
  rw [List.getD_eq_getElem?_getD, List.getD_eq_getElem?_getD,
    List.getElem?_append, if_pos (by simp [List.length_take]; omega),
    List.getElem?_take, if_pos (by omega)]

lemma getD_shiftRightRow_succ (row : List ℚ) (j : Nat) (hj : j < row.length - 1) :
    (row.take 1 ++ row.take (row.length - 1)).getD (j + 1) 0 = row.getD j 0 := by
  have hW : 1 ≤ row.length := by omega
  have hlen : (row.take 1).length = 1 := by simp [List.length_take]; omega
  rw [List.getD_eq_getElem?_getD, List.getD_eq_getElem?_getD,
    List.getElem?_append, if_neg (by omega), hlen]
  have h1 : j + 1 - 1 = j := by omega
  rw [h1, List.getElem?_take, if_pos hj]

lemma getD_map_rows (f : List ℚ → List ℚ) (patch : Patch ℚ) (i : Nat)
    (hi : i < patch.length) :
    (patch.map f).getD i [] = f (patch.getD i []) := by
  rw [List.getD_eq_getElem?_getD, List.getD_eq_getElem?_getD, List.getElem?_map,
    List.getElem?_eq_getElem hi]
  rfl

lemma getD_mem_of_lt (patch : Patch ℚ) (i : Nat) (hi : i < patch.length) :
    patch.getD i [] ∈ patch := by
  rw [List.getD_eq_getElem?_getD, List.getElem?_eq_getElem hi]
  exact List.getElem_mem hi

lemma getD_out_of_range {α : Type} (l : List α) (d : α) (i : Nat) (hi : l.length ≤ i) :
    l.getD i d = d := by
  rw [List.getD_eq_getElem?_getD, List.getElem?_eq_none hi]
  rfl

lemma entry_map_rows (f : List ℚ → List ℚ) (patch : Patch ℚ) (i j k : Nat)
    (hrow : ∀ row ∈ patch, (f row).getD j 0 = row.getD k 0) :
    entry (patch.map f) i j = entry patch i k := by
  unfold entry
  rcases Nat.lt_or_ge i patch.length with hi | hi
  · rw [getD_map_rows f patch i hi]
    exact hrow _ (getD_mem_of_lt patch i hi)
  · rw [getD_out_of_range (patch.map f) [] i (by simpa using hi),
      getD_out_of_range patch [] i hi]
    simp [List.getD_eq_getElem?_getD]

/-- C1: for every patch and shift probability, one call to the shift
augmentation consumes one uniform draw `r ∈ [0,1)` and, with
`p = min 1 p_shift`, takes the shift-left branch when `r < p/2`, the
shift-right branch when `p/2 ≤ r < p`, and returns the patch unchanged
when `p ≤ r`; the three branches are mutually exclusive and exhaustive
over `[0,1)`. -/
theorem augment_shift_branches (p_shift r : ℚ) (patch : Patch ℚ)
    (h0 : 0 ≤ r) (h1 : r < 1) :
    (r < min 1 p_shift / 2 ∧
      ¬(min 1 p_shift / 2 ≤ r ∧ r < min 1 p_shift) ∧ ¬ min 1 p_shift ≤ r ∧
      _augment_shift p_shift r patch = _shift_left patch) ∨
    ((min 1 p_shift / 2 ≤ r ∧ r < min 1 p_shift) ∧
      ¬ r < min 1 p_shift / 2 ∧ ¬ min 1 p_shift ≤ r ∧
      _augment_shift p_shift r patch = _shift_right patch) ∨
    (min 1 p_shift ≤ r ∧
      ¬ r < min 1 p_shift / 2 ∧ ¬(min 1 p_shift / 2 ≤ r ∧ r < min 1 p_shift) ∧
      _augment_shift p_shift r patch = patch) := by
  by_cases hL : r < min 1 p_shift / 2
  · left
    have hpos : 0 < min 1 p_shift / 2 := lt_of_le_of_lt h0 hL
    refine ⟨hL, ?_, ?_, ?_⟩
    · rintro ⟨hge, -⟩
      linarith
    · intro hge
      linarith
    · simp only [_augment_shift]
      rw [if_pos hL]
  · by_cases hM : r < min 1 p_shift
    · right; left
      refine ⟨⟨le_of_not_lt hL, hM⟩, hL, not_le.mpr hM, ?_⟩
      simp only [_augment_shift]
      rw [if_neg hL, if_pos hM]
    · right; right
      refine ⟨le_of_not_lt hM, hL, ?_, ?_⟩
      · rintro ⟨-, hlt⟩
        exact hM hlt
      · simp only [_augment_shift]
        rw [if_neg hL, if_neg hM]

/-- Witness for C1 at `p_shift = 1`, `r = 0`, `patch = [[1, 2]]`. -/
theorem augment_shift_branches_witness :
    (0 : ℚ) ≤ 0 ∧ (0 : ℚ) < 1 ∧
    (((0 : ℚ) < min 1 1 / 2 ∧
      ¬(min 1 (1 : ℚ) / 2 ≤ 0 ∧ (0 : ℚ) < min 1 1) ∧ ¬ min 1 (1 : ℚ) ≤ 0 ∧
      _augment_shift 1 0 [[(1 : ℚ), 2]] = _shift_left [[(1 : ℚ), 2]]) ∨
    ((min 1 (1 : ℚ) / 2 ≤ 0 ∧ (0 : ℚ) < min 1 1) ∧
      ¬ (0 : ℚ) < min 1 1 / 2 ∧ ¬ min 1 (1 : ℚ) ≤ 0 ∧
      _augment_shift 1 0 [[(1 : ℚ), 2]] = _shift_right [[(1 : ℚ), 2]]) ∨
    (min 1 (1 : ℚ) ≤ 0 ∧
      ¬ (0 : ℚ) < min 1 1 / 2 ∧ ¬(min 1 (1 : ℚ) / 2 ≤ 0 ∧ (0 : ℚ) < min 1 1) ∧
      _augment_shift 1 0 [[(1 : ℚ), 2]] = [[(1 : ℚ), 2]])) :=
  ⟨le_refl 0, by norm_num,
    augment_shift_branches 1 0 [[(1 : ℚ), 2]] (le_refl 0) (by norm_num)⟩

/-- C2: on any (H, W) patch with W ≥ 1 both one-pixel shifts preserve the
shape and replicate the edge column: shift-left moves input columns
`1..W-1` to `0..W-2` and repeats input column `W-1` at column `W-1`;
shift-right moves input columns `0..W-2` to `1..W-1` and repeats input
column `0` at column `0`. -/
theorem shift_edge_replication (H W : Nat) (patch : Patch ℚ)
    (hshape : hasShape H W patch) (hW : 1 ≤ W) :
    hasShape H W (_shift_left patch) ∧ hasShape H W (_shift_right patch) ∧
    (∀ i j, j < W - 1 → entry (_shift_left patch) i j = entry patch i (j + 1)) ∧
    (∀ i, entry (_shift_left patch) i (W - 1) = entry patch i (W - 1)) ∧
    (∀ i j, j < W - 1 → entry (_shift_right patch) i (j + 1) = entry patch i j) ∧
    (∀ i, entry (_shift_right patch) i 0 = entry patch i 0) := by
  obtain ⟨hlen, hrows⟩ := hshape
  refine ⟨⟨?_, ?_⟩, ⟨?_, ?_⟩, ?_, ?_, ?_, ?_⟩
  · simpa [_shift_left] using hlen
  · intro row' hrow'
    simp only [_shift_left, List.mem_map] at hrow'
    obtain ⟨row, hrow, rfl⟩ := hrow'
    rw [length_shiftLeftRow row (by rw [hrows row hrow]; exact hW)]
    exact hrows row hrow
  · simpa [_shift_right] using hlen
  · intro row' hrow'
    simp only [_shift_right, List.mem_map] at hrow'
    obtain ⟨row, hrow, rfl⟩ := hrow'
    rw [length_shiftRightRow row (by rw [hrows row hrow]; exact hW)]
    exact hrows row hrow
  · intro i j hj
    refine entry_map_rows _ patch i j (j + 1) (fun row hrow => ?_)
    exact getD_shiftLeftRow_lt row j (by rw [hrows row hrow]; omega)
  · intro i
    refine entry_map_rows _ patch i (W - 1) (W - 1) (fun row hrow => ?_)
    have hl : row.length = W := hrows row hrow
    have h2 := getD_shiftLeftRow_last row (by rw [hl]; exact hW)
    rw [hl] at h2
    rw [hl]
    exact h2
  · intro i j hj
    refine entry_map_rows _ patch i (j + 1) j (fun row hrow => ?_)
    exact getD_shiftRightRow_succ row j (by rw [hrows row hrow]; omega)
  · intro i
    refine entry_map_rows _ patch i 0 0 (fun row hrow => ?_)
    exact getD_shiftRightRow_zero row (by rw [hrows row hrow]; exact hW)

/-- Witness for C2 at `H = 1`, `W = 2`, `patch = [[1, 2]]`. -/
theorem shift_edge_replication_witness :
    hasShape 1 2 [[(1 : ℚ), 2]] ∧ 1 ≤ 2 ∧
    (hasShape 1 2 (_shift_left [[(1 : ℚ), 2]]) ∧
      hasShape 1 2 (_shift_right [[(1 : ℚ), 2]]) ∧
      (∀ i j, j < 2 - 1 →
        entry (_shift_left [[(1 : ℚ), 2]]) i j = entry [[(1 : ℚ), 2]] i (j + 1)) ∧
      (∀ i, entry (_shift_left [[(1 : ℚ), 2]]) i (2 - 1) =
        entry [[(1 : ℚ), 2]] i (2 - 1)) ∧
      (∀ i j, j < 2 - 1 →
        entry (_shift_right [[(1 : ℚ), 2]]) i (j + 1) = entry [[(1 : ℚ), 2]] i j) ∧
      (∀ i, entry (_shift_right [[(1 : ℚ), 2]]) i 0 = entry [[(1 : ℚ), 2]] i 0)) :=
  ⟨by decide, by decide, shift_edge_replication 1 2 [[1, 2]] (by decide) (by decide)⟩

lemma oneMinus_oneMinus (patch : Patch ℝ) : oneMinus (oneMinus patch) = patch := by
  simp [oneMinus, List.map_map, Function.comp_def]

/-- C4: one call to the rotation augmentation consumes one uniform sample
`u ∈ [0,1)`; the drawn angle lies in `[-θ_max, θ_max]` radians, the
result is `1 - rotate(1 - patch, θ)`, and the draw happens even when
`θ_max = 0`, in which case (rotation by a zero angle being the identity)
the output equals the input patch exactly. -/
theorem augment_rotation_draw (rotate : Patch ℝ → ℝ → Patch ℝ)
    (max_degrees u : ℝ) (patch : Patch ℝ)
    (hu0 : 0 ≤ u) (hu1 : u < 1) (hdeg : 0 ≤ max_degrees) :
    (-(radians max_degrees) ≤
        tf_random_uniform (-(radians max_degrees)) (radians max_degrees) u ∧
      tf_random_uniform (-(radians max_degrees)) (radians max_degrees) u ≤
        radians max_degrees) ∧
    _augment_rotation rotate max_degrees u patch =
      oneMinus (rotate (oneMinus patch)
        (tf_random_uniform (-(radians max_degrees)) (radians max_degrees) u)) ∧
    (max_degrees = 0 → (∀ q, rotate q 0 = q) →
      _augment_rotation rotate max_degrees u patch = patch) := by
  have hm : 0 ≤ radians max_degrees := by
    unfold radians
    have hpi : (0 : ℝ) ≤ Real.pi / 180 := by positivity
    exact mul_nonneg hdeg hpi
  refine ⟨⟨?_, ?_⟩, rfl, ?_⟩
  · unfold tf_random_uniform
    nlinarith
  · unfold tf_random_uniform
    nlinarith
  · intro h0 hrot
    subst h0
    have hr0 : radians 0 = 0 := by
      unfold radians
      ring
    have hang : tf_random_uniform (-(radians (0 : ℝ))) (radians 0) u = 0 := by
      unfold tf_random_uniform
      rw [hr0]
      ring
    show oneMinus (rotate (oneMinus patch)
      (tf_random_uniform (-(radians 0)) (radians 0) u)) = patch
    rw [hang, hrot, oneMinus_oneMinus]

/-- Witness for C4 at `rotate = fun q _ => q`, `θ_max = 0`, `u = 0`,
`patch = [[0]]`. -/
theorem augment_rotation_draw_witness :
    (0 : ℝ) ≤ 0 ∧ (0 : ℝ) < 1 ∧ (0 : ℝ) ≤ 0 ∧
    ((-(radians 0) ≤ tf_random_uniform (-(radians 0)) (radians 0) 0 ∧
      tf_random_uniform (-(radians 0)) (radians 0) 0 ≤ radians 0) ∧
    _augment_rotation (fun q _ => q) 0 0 [[(0 : ℝ)]] =
      oneMinus ((fun (q : Patch ℝ) (_ : ℝ) => q) (oneMinus [[(0 : ℝ)]])
        (tf_random_uniform (-(radians 0)) (radians 0) 0)) ∧
    ((0 : ℝ) = 0 → (∀ q, (fun (q : Patch ℝ) (_ : ℝ) => q) q 0 = q) →
      _augment_rotation (fun q _ => q) 0 0 [[(0 : ℝ)]] = [[(0 : ℝ)]])) :=
  ⟨le_refl 0, by norm_num, le_refl 0,
    augment_rotation_draw (fun q _ => q) 0 0 [[(0 : ℝ)]]
      (le_refl 0) (by norm_num) (le_refl 0)⟩

/-- C6: the full augmentation applies shift first, then rotation:
`_augment` is `_augment_rotation` composed after `_augment_shift`, i.e.
the rotation inversion sandwich is applied to the already-shifted patch. -/
theorem augment_composes (rotate : Patch ℝ → ℝ → Patch ℝ) (p_shift : ℚ)
    (max_degrees : ℝ) (rand : ℚ) (u : ℝ) (patch : Patch ℝ) :
    _augment rotate p_shift max_degrees rand u patch =
      _augment_rotation rotate max_degrees u (_augment_shift p_shift rand patch) ∧
    _augment rotate p_shift max_degrees rand u patch =
      oneMinus (rotate (oneMinus
        (if rand < min 1 p_shift / 2 then _shift_left patch
         else if rand < min 1 p_shift then _shift_right patch
         else patch))
        (tf_random_uniform (-(radians max_degrees)) (radians max_degrees) u)) :=
  ⟨rfl, rfl⟩

/-- C3 counterexample: on a glob matching no files,
`read_patch_dimensions` does not raise — the Python function body falls
off the end and returns `None`. -/
theorem read_patch_dimensions_empty_glob_returns_none :
    read_patch_dimensions [] = Except.ok none :=
  rfl

/-- C3 amended: when no matching file yields a record carrying both
features, `read_patch_dimensions` either returns Python `None` (it does
exactly this when the glob matches no files or every matched file is
empty) or propagates a parse/index error; it never returns a shape. -/
theorem read_patch_dimensions_no_dims_never_shape (files : List (List Record))
    (hno : ∀ file ∈ files, ∀ record ∈ file, ∀ hw, parseDims record ≠ Except.ok hw) :
    read_patch_dimensions files = Except.ok none ∨
    ∃ e, read_patch_dimensions files = Except.error e := by
  induction files with
  | nil => exact Or.inl rfl
  | cons file rest ih =>
    cases file with
    | nil =>
      show read_patch_dimensions rest = Except.ok none ∨
        ∃ e, read_patch_dimensions rest = Except.error e
      exact ih (fun f hf r hr => hno f (List.mem_cons_of_mem _ hf) r hr)
    | cons record rs =>
      have hbad := hno _ (List.mem_cons_self _ _) record (List.mem_cons_self _ _)
      cases hpd : parseDims record with
      | ok hw => exact absurd hpd (hbad hw)
      | error e =>
        right
        refine ⟨e, ?_⟩
        show (match parseDims record with
          | .ok hw => Except.ok (some hw)
          | .error e => Except.error e) = Except.error e
        rw [hpd]

/-- Witness for the amended C3 at the empty glob. -/
theorem read_patch_dimensions_no_dims_never_shape_witness :
    (∀ file ∈ ([] : List (List Record)), ∀ record ∈ file,
      ∀ hw, parseDims record ≠ Except.ok hw) ∧
    (read_patch_dimensions [] = Except.ok none ∨
      ∃ e, read_patch_dimensions [] = Except.error e) :=
  ⟨by simp, read_patch_dimensions_no_dims_never_shape [] (by simp)⟩

/-- C7 counterexample: a file whose first record does not parse is not
skipped — the decode error propagates and the scan never reaches the
later file whose record carries both dimensions. -/
theorem dim_scan_unparsable_file_not_skipped :
    read_patch_dimensions
        [[none], [some ⟨[5], [7], [], 0, none⟩]] =
      Except.error PyError.decodeError ∧
    read_patch_dimensions
        [[none], [some ⟨[5], [7], [], 0, none⟩]] ≠
      Except.ok (some (5, 7)) :=
  ⟨rfl, fun h => Except.noConfusion h⟩

/-- C7 amended: files with no records are skipped silently and the scan
continues; the scan is decided by the first record of the first nonempty
file — if it parses and carries both features, it determines the result,
and otherwise its error propagates (later records and files are never
consulted); with no nonempty file the function returns Python `None`. -/
theorem read_patch_dimensions_eq_dimScanSpec (files : List (List Record)) :
    read_patch_dimensions files = dimScanSpec files := by
  induction files with
  | nil => rfl
  | cons file rest ih =>
    cases file with
    | nil =>
      have hfind : firstNonemptyFile (([] : List Record) :: rest) =
          firstNonemptyFile rest := by
        simp [firstNonemptyFile]
      show read_patch_dimensions rest = dimScanSpec (([] : List Record) :: rest)
      unfold dimScanSpec
      rw [hfind]
      exact ih
    | cons record rs =>
      have hfind : firstNonemptyFile ((record :: rs) :: rest) =
          some (record :: rs) := by
        simp [firstNonemptyFile]
      unfold dimScanSpec
      rw [hfind]
      show (match parseDims record with
        | .ok hw => Except.ok (some hw)
        | .error e => Except.error e) = (parseDims record).map some
      cases parseDims record <;> rfl

/-- C8: the dimension reader is memoized and idempotent: with the scan
result cached by the first call, a second call returns the identical
result and runs the underlying file scan zero times (the first call ran
it exactly once). -/
theorem read_patch_dimensions_memoized (files : List (List Record)) :
    (memoizedCall (fun _ => read_patch_dimensions files)
        ((memoizedCall (fun _ => read_patch_dimensions files) ⟨none⟩).2.1)).1 =
      (memoizedCall (fun _ => read_patch_dimensions files) ⟨none⟩).1 ∧
    (memoizedCall (fun _ => read_patch_dimensions files)
        ((memoizedCall (fun _ => read_patch_dimensions files) ⟨none⟩).2.1)).2.2 = 0 ∧
    (memoizedCall (fun _ => read_patch_dimensions files) ⟨none⟩).2.2 = 1 :=
  ⟨rfl, rfl, rfl⟩

lemma parse_single_example_some (ui : Bool) (h w : Int) (record : ExampleProto)
    (features : ParsedFeatures)
    (hp : parse_single_example ui h w record = some features) :
    features.patch = record.patch ∧ features.label = record.label ∧
    (ui = true → ∃ lw, record.label_weight = some lw ∧
      features.label_weight = some lw) := by
  unfold parse_single_example at hp
  by_cases hs : shapeOk h w record.patch = true
  · rw [if_pos hs] at hp
    cases ui with
    | false =>
      simp only [Bool.false_eq_true, if_false] at hp
      injection hp with h1
      subst h1
      exact ⟨rfl, rfl, fun hc => by cases hc⟩
    | true =>
      simp only [if_true] at hp
      cases hlw : record.label_weight with
      | none =>
        rw [hlw] at hp
        exact absurd hp (by simp)
      | some lw =>
        rw [hlw] at hp
        injection hp with h1
        subst h1
        exact ⟨rfl, rfl, fun _ => ⟨lw, rfl, rfl⟩⟩
  · rw [if_neg hs] at hp
    exact absurd hp (by simp)

/-- C5: on every record the framework parses successfully, the example
parser computes the weight as `weights_from_labels(label)`, multiplies it
by the record's `label_weight` feature exactly when the
`use_included_label_weight` option is set, and returns the pair of the
features dict (augmented patch and weight) with the record's label passed
through unchanged. -/
theorem parser_weight_and_label (ui : Bool) (wf : Int → ℚ)
    (augment : Patch ℚ → Patch ℚ) (h w : Int) (record : ExampleProto)
    (features : ParsedFeatures)
    (hparse : parse_single_example ui h w record = some features) :
    (ui = false →
      parser ui wf augment h w record =
        some ((augment record.patch, wf record.label), record.label)) ∧
    (ui = true →
      ∃ lw, record.label_weight = some lw ∧
        parser ui wf augment h w record =
          some ((augment record.patch, wf record.label * lw), record.label)) := by
  obtain ⟨hpatch, hlabel, hopt⟩ :=
    parse_single_example_some ui h w record features hparse
  constructor
  · rintro rfl
    unfold parser
    rw [hparse]
    simp only [Option.map_some', Bool.false_eq_true, if_false]
    rw [hpatch, hlabel]
  · rintro rfl
    obtain ⟨lw, hrec, hfeat⟩ := hopt rfl
    refine ⟨lw, hrec, ?_⟩
    unfold parser
    rw [hparse]
    simp only [Option.map_some', if_true]
    rw [hpatch, hlabel, hfeat]
    rfl

/-- Witness for C5 at `use_included_label_weight = true`,
`weights_from_labels = Int.cast`, `augment = id`, `(h, w) = (1, 1)`, a
record with label 3 and label_weight 2. -/
theorem parser_weight_and_label_witness :
    parse_single_example true 1 1 ⟨[1], [1], [[(0 : ℚ)]], 3, some 2⟩ =
      some ⟨[[(0 : ℚ)]], 3, some 2⟩ ∧
    ((true = false →
      parser true (fun l => (l : ℚ)) id 1 1 ⟨[1], [1], [[(0 : ℚ)]], 3, some 2⟩ =
        some ((id [[(0 : ℚ)]], ((3 : Int) : ℚ)), 3)) ∧
    (true = true →
      ∃ lw, some (2 : ℚ) = some lw ∧
        parser true (fun l => (l : ℚ)) id 1 1 ⟨[1], [1], [[(0 : ℚ)]], 3, some 2⟩ =
          some ((id [[(0 : ℚ)]], ((3 : Int) : ℚ) * lw), 3))) :=
  ⟨rfl, parser_weight_and_label true (fun l => (l : ℚ)) id 1 1
    ⟨[1], [1], [[(0 : ℚ)]], 3, some 2⟩ ⟨[[(0 : ℚ)]], 3, some 2⟩ rfl⟩

/-- C9: the serving input receiver applies no augmentation — the `patch`
feature handed to the model is exactly the parsed patch batch (which is
also the raw receiver-tensor alternative), with neither shift nor
rotation applied. -/
theorem serving_receiver_unaugmented (h w : Int) (examples : List ExampleProto)
    (recv : ServingInputReceiver)
    (hs : serving_fn h w examples = some recv) :
    recv.features_patch = examples.map (fun ex => ex.patch) ∧
    recv.receiver_patch = recv.features_patch := by
  unfold serving_fn tf_parse_example at hs
  by_cases hall : examples.all (fun ex => shapeOk h w ex.patch) = true
  · rw [if_pos hall] at hs
    simp only [Option.map_some'] at hs
    injection hs with h1
    subst h1
    exact ⟨rfl, rfl⟩
  · rw [if_neg hall] at hs
    exact absurd hs (by simp)

/-- Witness for C9 on a one-example batch with a (1, 1) patch. -/
theorem serving_receiver_unaugmented_witness :
    serving_fn 1 1 [⟨[1], [1], [[(0 : ℚ)]], 0, none⟩] =
      some ⟨[[[(0 : ℚ)]]], [[[(0 : ℚ)]]]⟩ ∧
    ((⟨[[[(0 : ℚ)]]], [[[(0 : ℚ)]]]⟩ : ServingInputReceiver).features_patch =
      [(⟨[1], [1], [[(0 : ℚ)]], 0, none⟩ : ExampleProto)].map (fun ex => ex.patch) ∧
    (⟨[[[(0 : ℚ)]]], [[[(0 : ℚ)]]]⟩ : ServingInputReceiver).receiver_patch =
      (⟨[[[(0 : ℚ)]]], [[[(0 : ℚ)]]]⟩ : ServingInputReceiver).features_patch) :=
  ⟨rfl, serving_receiver_unaugmented 1 1 [⟨[1], [1], [[(0 : ℚ)]], 0, none⟩]
    ⟨[[[(0 : ℚ)]]], [[[(0 : ℚ)]]]⟩ rfl⟩

/-- C10: whatever glob argument `input_fn` receives, the `(height, width)`
used to parse the `patch` feature is the one `read_patch_dimensions`
discovered from the `--train_input_patches` glob, never from the argument
glob; in particular the evaluation pipeline parses evaluation records
against dimensions discovered from the training dataset. -/
theorem input_fn_uses_train_dims (cfg : Config)
    (matching_files : String → List (List Record)) (wf : Int → ℚ)
    (augment : Patch ℚ → Patch ℚ) (g : String) (h w : Int)
    (hdims : read_patch_dimensions (matching_files cfg.train_input_patches) =
      Except.ok (some (h, w))) :
    input_fn cfg matching_files wf augment g =
      Except.ok (((matching_files g).flatten).map (fun record =>
        record.bind (fun ex =>
          parser cfg.use_included_label_weight wf augment h w ex))) ∧
    eval_input_fn cfg matching_files wf augment =
      Except.ok (((matching_files cfg.eval_input_patches).flatten).map (fun record =>
        record.bind (fun ex =>
          parser cfg.use_included_label_weight wf augment h w ex))) := by
  constructor
  · unfold input_fn
    rw [hdims]
  · unfold eval_input_fn input_fn
    rw [hdims]

/-- Witness for C10: the training glob resolves to a one-record file with
a (1, 1) patch; the argument glob is unrelated to the dimensions used. -/
theorem input_fn_uses_train_dims_witness :
    read_patch_dimensions
        ((fun glob => if glob = "tr" then
            [[some (⟨[1], [1], [[(0 : ℚ)]], 0, none⟩ : ExampleProto)]]
          else [[]]) (Config.mk "tr" "ev" false).train_input_patches) =
      Except.ok (some (1, 1)) ∧
    (input_fn (Config.mk "tr" "ev" false)
        (fun glob => if glob = "tr" then
            [[some (⟨[1], [1], [[(0 : ℚ)]], 0, none⟩ : ExampleProto)]]
          else [[]])
        (fun _ => 1) id "other" =
      Except.ok ((((fun glob => if glob = "tr" then
            [[some (⟨[1], [1], [[(0 : ℚ)]], 0, none⟩ : ExampleProto)]]
          else [[]]) "other").flatten).map (fun record =>
        record.bind (fun ex => parser false (fun _ => 1) id 1 1 ex))) ∧
    eval_input_fn (Config.mk "tr" "ev" false)
        (fun glob => if glob = "tr" then
            [[some (⟨[1], [1], [[(0 : ℚ)]], 0, none⟩ : ExampleProto)]]
          else [[]])
        (fun _ => 1) id =
      Except.ok ((((fun glob => if glob = "tr" then
            [[some (⟨[1], [1], [[(0 : ℚ)]], 0, none⟩ : ExampleProto)]]
          else [[]]) "ev").flatten).map (fun record =>
        record.bind (fun ex => parser false (fun _ => 1) id 1 1 ex)))) :=
  ⟨rfl, input_fn_uses_train_dims (Config.mk "tr" "ev" false)
    (fun glob => if glob = "tr" then
        [[some (⟨[1], [1], [[(0 : ℚ)]], 0, none⟩ : ExampleProto)]]
      else [[]])
    (fun _ => 1) id "other" 1 1 rfl⟩

end GlyphPatches
